import Mathlib

/-!
# Verification of the Bonney Lake real-estate comparison pipeline

Shallow embedding of `src/comp.py`: the `load_data` normalization
(comma stripping, `pd.to_numeric(errors='coerce')` coercion, listing-number
string coercion, derived `Price/SqFt` column), the style-code partition,
the mean/premium aggregation and the CSV export of the two-style table.

Modelling conventions:
* A pandas cell is either a raw string (object dtype) or an extended
  numeric value.  Numerics are exact rationals extended with `nan`,
  `inf` and `-inf`, with IEEE-754 special-value propagation for the
  arithmetic the script performs (float rounding is outside the model;
  signed zero is collapsed to `0`).
* Per the Record Loader contract (spec §4.1), loading a tabular source
  yields records whose field values are raw strings; a table is an
  ordered list of records and the CSV text format is modelled at the
  cell level as a list of rows of cell strings (header and quoting
  mechanics are outside the model).
* `pd.to_numeric`'s accepted grammar is modelled as optionally signed
  plain decimal numerals; exponent and infinity spellings count as
  unparseable, like every other malformed field.
-/

namespace Comp

/-- Extended numeric value held by a pandas float64 cell:
an exact rational, or one of the IEEE special values. -/
inductive EV where
  | num : ℚ → EV
  | nan : EV
  | inf : EV
  | ninf : EV
deriving DecidableEq, Repr

/-- A pandas cell: a raw string (object dtype), an extended float value, or an
int64 value (`read_csv` delivers an all-integer-literal column as int64, whose
`astype(str)` rendering has no decimal point). -/
inductive Cell where
  | str : String → Cell
  | ev : EV → Cell
  | intg : ℤ → Cell
deriving DecidableEq, Repr

/-! ## Numeric-string parsing (`pd.to_numeric(..., errors='coerce')`) -/

/-- Value of a decimal digit character, `none` for any other character. -/
def charDigit (c : Char) : Option ℕ :=
  if '0' ≤ c ∧ c ≤ '9' then some (c.toNat - 48) else none

/-- Digit values of a character list; `none` if any character is not a digit. -/
def charsDigits : List Char → Option (List ℕ)
  | [] => some []
  | c :: cs =>
    match charDigit c, charsDigits cs with
    | some d, some ds => some (d :: ds)
    | _, _ => none

/-- Numeric value of a big-endian digit-character list. -/
def digitsToNat (cs : List Char) : Option ℕ :=
  (charsDigits cs).map fun ds => Nat.ofDigits 10 ds.reverse

/-- Split a character list at the first decimal point, if any. -/
def splitDot : List Char → List Char × Option (List Char)
  | [] => ([], none)
  | c :: cs =>
    if c = '.' then ([], some cs)
    else
      let p := splitDot cs
      (c :: p.1, p.2)

/-- Parse an unsigned decimal numeral split as integer part / fractional part. -/
def parseParts (ip fp : List Char) : EV :=
  if ip.isEmpty && fp.isEmpty then EV.nan
  else
    match digitsToNat ip, digitsToNat fp with
    | some n, some f =>
      EV.num (((n : ℚ) * 10 ^ fp.length + (f : ℚ)) / 10 ^ fp.length)
    | _, _ => EV.nan

/-- Parse an unsigned decimal mantissa (digits with at most one point). -/
def parseMantissa (cs : List Char) : EV :=
  let p := splitDot cs
  match p.2 with
  | none =>
    if cs.isEmpty then EV.nan
    else
      match digitsToNat p.1 with
      | some n => EV.num (n : ℚ)
      | none => EV.nan
  | some fp => parseParts p.1 fp

/-- Split a character list at the first exponent marker, if any. -/
def splitExp : List Char → List Char × Option (List Char)
  | [] => ([], none)
  | c :: cs =>
    if c = 'e' ∨ c = 'E' then ([], some cs)
    else
      let p := splitExp cs
      (c :: p.1, p.2)

/-- Parse a signed integer exponent. -/
def parseExpInt : List Char → Option ℤ
  | '-' :: ds => if ds.isEmpty then none else (digitsToNat ds).map fun n => -(n : ℤ)
  | '+' :: ds => if ds.isEmpty then none else (digitsToNat ds).map fun n => (n : ℤ)
  | ds => if ds.isEmpty then none else (digitsToNat ds).map fun n => (n : ℤ)

/-- Parse an unsigned numeral: decimal mantissa with optional scientific
exponent part. -/
def parseUnsigned (cs : List Char) : EV :=
  let e := splitExp cs
  match e.2 with
  | none => parseMantissa cs
  | some es =>
    match parseMantissa e.1, parseExpInt es with
    | EV.num q, some ex => EV.num (q * 10 ^ ex)
    | _, _ => EV.nan

/-- Numeric negation on extended values. -/
def negEV : EV → EV
  | EV.num q => EV.num (-q)
  | EV.inf => EV.ninf
  | EV.ninf => EV.inf
  | EV.nan => EV.nan

/-- ASCII lowercasing of one character. -/
def lowerAscii (c : Char) : Char :=
  if 'A' ≤ c ∧ c ≤ 'Z' then Char.ofNat (c.toNat + 32) else c

/-- The infinity spellings `pd.to_numeric` accepts (case-insensitive). -/
def isInfChars (cs : List Char) : Bool :=
  decide (cs.map lowerAscii = ['i', 'n', 'f']) ||
    decide (cs.map lowerAscii = ['i', 'n', 'f', 'i', 'n', 'i', 't', 'y'])

/-- Whitespace ignored around numerals. -/
def isSpaceChar (c : Char) : Bool :=
  decide (c = ' ') || decide (c = '\t') || decide (c = '\n') || decide (c = '\r')

/-- Strip leading and trailing whitespace. -/
def trimChars (cs : List Char) : List Char :=
  ((cs.dropWhile isSpaceChar).reverse.dropWhile isSpaceChar).reverse

/-- Parse an unsigned numeral or an infinity spelling. -/
def parseUnsignedInf (cs : List Char) : EV :=
  if isInfChars cs then EV.inf else parseUnsigned cs

/-- `pd.to_numeric(errors='coerce')` on one already-trimmed character list. -/
def parseEVList : List Char → EV
  | [] => EV.nan
  | c :: rest =>
    if c = '-' then negEV (parseUnsignedInf rest)
    else if c = '+' then parseUnsignedInf rest
    else parseUnsignedInf (c :: rest)

/-- `pd.to_numeric(..., errors='coerce')` applied to one string: optionally
signed decimal numerals with an optional scientific exponent, the infinity
spellings (`inf`, `infinity`, any case, optionally signed) parse to `±inf`,
surrounding whitespace is ignored, and anything else coerces to `nan`.
Float overflow of huge finite numerals to `±inf` is a float-range artifact
outside this exact-rational model. -/
def parseEV (s : String) : EV :=
  parseEVList (trimChars s.toList)

/-! ## Decimal rendering of rational values -/

/-- Character of a decimal digit. -/
def digitChar (d : ℕ) : Char := Char.ofNat (48 + d)

/-- Little-endian base-ten digits, structurally recursive on a fuel argument
so that concrete instances reduce in the kernel. -/
def natDigitsAux : ℕ → ℕ → List ℕ
  | 0, _ => []
  | _ + 1, 0 => []
  | fuel + 1, n + 1 => ((n + 1) % 10) :: natDigitsAux fuel ((n + 1) / 10)

/-- Little-endian base-ten digits of a natural number (`[]` for `0`). -/
def natDigits (n : ℕ) : List ℕ := natDigitsAux n n

/-- Big-endian digit characters of a natural number (`[]` for `0`). -/
def natChars (n : ℕ) : List Char :=
  ((natDigits n).map digitChar).reverse

/-- Big-endian digit characters, rendering `0` as `"0"`. -/
def natStr (n : ℕ) : List Char :=
  if n = 0 then ['0'] else natChars n

/-- Left-pad a character list with zeros to length `k`. -/
def padZeros (k : ℕ) (cs : List Char) : List Char :=
  List.replicate (k - cs.length) '0' ++ cs

/-- Decimal string of an int64 value, `str(int)` style (no decimal point). -/
def intStrZ (n : ℤ) : String :=
  if n < 0 then String.mk ('-' :: natStr n.natAbs) else String.mk (natStr n.natAbs)

/-- Decimal rendering of a rational whose denominator divides a power of ten
(the only rationals a float64 column can hold), in the float `repr` style
to_csv writes: integer part, point, `q.den` fractional digits. -/
def renderQ (q : ℚ) : String :=
  let K := q.den
  let m := (q * 10 ^ K).num
  let core := natStr (m.natAbs / 10 ^ K) ++ '.' :: padZeros K (natChars (m.natAbs % 10 ^ K))
  if m < 0 then String.mk ('-' :: core) else String.mk core

/-! ## Cell-level operations of `load_data` -/

/-- Remove every comma from a string (`.replace(',', '', regex=True)`
acting on one string). -/
def stripCommasStr (s : String) : String :=
  String.mk (s.toList.filter fun c => decide (c ≠ ','))

/-- `Series.replace(',', '', regex=True)` on one cell: regex replacement
rewrites string cells only, numeric cells pass through unchanged. -/
def stripCommas : Cell → Cell
  | Cell.str s => Cell.str (stripCommasStr s)
  | c => c

/-- `Series.astype(str)` on one cell. -/
def astypeStr : Cell → Cell
  | Cell.str s => Cell.str s
  | Cell.ev (EV.num q) => Cell.str (renderQ q)
  | Cell.ev EV.nan => Cell.str "nan"
  | Cell.ev EV.inf => Cell.str "inf"
  | Cell.ev EV.ninf => Cell.str "-inf"
  | Cell.intg n => Cell.str (intStrZ n)

/-- `pd.to_numeric(..., errors='coerce')` on one cell. -/
def toNumeric : Cell → EV
  | Cell.str s => parseEV s
  | Cell.ev v => v
  | Cell.intg n => EV.num (n : ℚ)

/-- Numeric value of a cell in a numeric column. -/
def cellEV : Cell → EV
  | Cell.str _ => EV.nan
  | Cell.ev v => v
  | Cell.intg n => EV.num (n : ℚ)

/-- One cell as written by `DataFrame.to_csv` (NaN becomes the empty field). -/
def cellToCsv : Cell → String
  | Cell.str s => s
  | Cell.ev (EV.num q) => renderQ q
  | Cell.ev EV.nan => ""
  | Cell.ev EV.inf => "inf"
  | Cell.ev EV.ninf => "-inf"
  | Cell.intg n => intStrZ n

/-! ## IEEE-style arithmetic on extended values -/

/-- Float addition with special-value propagation. -/
def EV.add : EV → EV → EV
  | EV.nan, _ => EV.nan
  | _, EV.nan => EV.nan
  | EV.inf, EV.ninf => EV.nan
  | EV.ninf, EV.inf => EV.nan
  | EV.inf, _ => EV.inf
  | _, EV.inf => EV.inf
  | EV.ninf, _ => EV.ninf
  | _, EV.ninf => EV.ninf
  | EV.num a, EV.num b => EV.num (a + b)

/-- Float subtraction with special-value propagation. -/
def EV.sub : EV → EV → EV
  | EV.nan, _ => EV.nan
  | _, EV.nan => EV.nan
  | EV.inf, EV.inf => EV.nan
  | EV.ninf, EV.ninf => EV.nan
  | EV.inf, _ => EV.inf
  | EV.ninf, _ => EV.ninf
  | EV.num _, EV.inf => EV.ninf
  | EV.num _, EV.ninf => EV.inf
  | EV.num a, EV.num b => EV.num (a - b)

/-- Float multiplication with special-value propagation. -/
def EV.mul : EV → EV → EV
  | EV.nan, _ => EV.nan
  | _, EV.nan => EV.nan
  | EV.inf, EV.inf => EV.inf
  | EV.inf, EV.ninf => EV.ninf
  | EV.ninf, EV.inf => EV.ninf
  | EV.ninf, EV.ninf => EV.inf
  | EV.inf, EV.num b => if 0 < b then EV.inf else if b < 0 then EV.ninf else EV.nan
  | EV.num a, EV.inf => if 0 < a then EV.inf else if a < 0 then EV.ninf else EV.nan
  | EV.ninf, EV.num b => if 0 < b then EV.ninf else if b < 0 then EV.inf else EV.nan
  | EV.num a, EV.ninf => if 0 < a then EV.ninf else if a < 0 then EV.inf else EV.nan
  | EV.num a, EV.num b => EV.num (a * b)

/-- Float division with special-value propagation: a nonzero finite value
divided by zero is a signed infinity, `0/0` is `nan`. -/
def EV.div : EV → EV → EV
  | EV.nan, _ => EV.nan
  | _, EV.nan => EV.nan
  | EV.inf, EV.inf => EV.nan
  | EV.inf, EV.ninf => EV.nan
  | EV.ninf, EV.inf => EV.nan
  | EV.ninf, EV.ninf => EV.nan
  | EV.inf, EV.num b => if b < 0 then EV.ninf else EV.inf
  | EV.ninf, EV.num b => if b < 0 then EV.inf else EV.ninf
  | EV.num _, EV.inf => EV.num 0
  | EV.num _, EV.ninf => EV.num 0
  | EV.num a, EV.num b =>
    if b ≠ 0 then EV.num (a / b)
    else if 0 < a then EV.inf
    else if a < 0 then EV.ninf
    else EV.nan

/-! ## Aggregation (`Series.mean`, premium ratio) -/

/-- Drop the `nan` entries of a float column (`skipna` behaviour of `mean`). -/
def dropNa (l : List EV) : List EV :=
  l.filter fun v => decide (v ≠ EV.nan)

/-- Sum of a float column. -/
def sumEV (l : List EV) : EV :=
  l.foldr EV.add (EV.num 0)

/-- `Series.mean()`: `nan` entries excluded from numerator and denominator,
`nan` on an empty or all-`nan` column. -/
def meanEV (l : List EV) : EV :=
  let l' := dropNa l
  if l'.length = 0 then EV.nan else EV.div (sumEV l') (EV.num (l'.length : ℚ))

/-- `((rambler_price_sqft - two_story_price_sqft) / two_story_price_sqft) * 100`. -/
def premiumEV (r t : EV) : EV :=
  EV.mul (EV.div (EV.sub r t) t) (EV.num 100)

/-! ## Records and the `load_data` pipeline -/

/-- One row of the table: the four columns the script touches, the derived
`Price/SqFt` column, and the remaining untouched columns in order. -/
@[ext]
structure Record where
  listingNumber : Cell
  sellingPrice : Cell
  squareFootage : Cell
  styleCode : Cell
  pricePerSqFt : Cell
  others : List Cell
deriving DecidableEq, Repr

/-- The per-row normalization `load_data` performs (comp.py lines 38-43):
coerce price and square footage to numerics after comma stripping, keep the
listing number as a comma-free string, recompute `Price/SqFt`. -/
def normalizeRecord (r : Record) : Record :=
  let price := toNumeric (stripCommas r.sellingPrice)
  let sqft := toNumeric (stripCommas r.squareFootage)
  { r with
    sellingPrice := Cell.ev price
    squareFootage := Cell.ev sqft
    listingNumber := stripCommas (astypeStr r.listingNumber)
    pricePerSqFt := Cell.ev (EV.div price sqft) }

/-- `load_data`'s column rewrites over the whole table. -/
def normalizeTable (df : List Record) : List Record :=
  df.map normalizeRecord

/-- Style code of single-story homes. -/
def oneStoryCode : Cell := Cell.str "10 - 1 Story"

/-- Style code of two-story homes. -/
def twoStoryCode : Cell := Cell.str "12 - 2 Story"

/-- `df[df['Style Code'] == '10 - 1 Story']`. -/
def oneStory (df : List Record) : List Record :=
  df.filter fun r => decide (r.styleCode = oneStoryCode)

/-- `df[df['Style Code'] == '12 - 2 Story']`. -/
def twoStory (df : List Record) : List Record :=
  df.filter fun r => decide (r.styleCode = twoStoryCode)

/-- `df[df['Style Code'].isin(['10 - 1 Story', '12 - 2 Story'])]`. -/
def bothStyles (df : List Record) : List Record :=
  df.filter fun r => decide (r.styleCode = oneStoryCode ∨ r.styleCode = twoStoryCode)

/-- The `Selling Price` column of a table. -/
def priceCol (df : List Record) : List EV :=
  df.map fun r => cellEV r.sellingPrice

/-- The `Price/SqFt` column of a table. -/
def ppsfCol (df : List Record) : List EV :=
  df.map fun r => cellEV r.pricePerSqFt

/-- `subset['Selling Price'].mean()`. -/
def meanPrice (df : List Record) : EV :=
  meanEV (priceCol df)

/-- `subset['Price/SqFt'].mean()`. -/
def meanPpsf (df : List Record) : EV :=
  meanEV (ppsfCol df)

/-- The displayed Rambler premium (comp.py lines 67-69). -/
def ramblerPremium (df : List Record) : EV :=
  premiumEV (meanPpsf (oneStory df)) (meanPpsf (twoStory df))

/-! ## CSV export and reload -/

/-- One record as a row of CSV fields (column order fixed by the model). -/
def exportRow (r : Record) : List String :=
  cellToCsv r.listingNumber :: cellToCsv r.sellingPrice :: cellToCsv r.squareFootage ::
    cellToCsv r.styleCode :: cellToCsv r.pricePerSqFt :: r.others.map cellToCsv

/-- The download-button export (comp.py line 172): the two-style filtered
table serialized to rows of CSV fields. -/
def exportCsv (df : List Record) : List (List String) :=
  (bothStyles df).map exportRow

/-- One row re-loaded under the Record Loader contract of spec §4.1: field
values delivered as raw strings.  The program's actual loader, `pd.read_csv`
(comp.py line 36), additionally type-infers whole columns — that behaviour is
modelled by `inferLoadTable` below and breaks the export round-trip for
identifier columns that become all-numeric after filtering. -/
def loadRow (cells : List String) : Record :=
  match cells with
  | l :: p :: s :: st :: pp :: rest =>
    { listingNumber := Cell.str l, sellingPrice := Cell.str p,
      squareFootage := Cell.str s, styleCode := Cell.str st,
      pricePerSqFt := Cell.str pp, others := rest.map Cell.str }
  | _ =>
    { listingNumber := Cell.str "", sellingPrice := Cell.str "",
      squareFootage := Cell.str "", styleCode := Cell.str "",
      pricePerSqFt := Cell.str "", others := [] }

/-- Raw-string Record Loader (spec §4.1 contract) over a serialized table. -/
def loadTable (rows : List (List String)) : List Record :=
  rows.map loadRow

/-- Integer literal as `read_csv` detects for an int64 column: optional sign
followed by digits only (leading zeros allowed and lost on parse). -/
def isIntLitB (s : String) : Bool :=
  match s.toList with
  | [] => false
  | '-' :: cs => !cs.isEmpty && cs.all fun c => (charDigit c).isSome
  | '+' :: cs => !cs.isEmpty && cs.all fun c => (charDigit c).isSome
  | cs => cs.all fun c => (charDigit c).isSome

/-- Whether `read_csv` can type a cell numerically: a parseable numeral,
an infinity spelling, or an empty field (NaN). -/
def isNumLitB (s : String) : Bool :=
  s.isEmpty || decide (parseEV s ≠ EV.nan)

/-- Value of an integer literal. -/
def intLitVal (s : String) : ℤ :=
  match s.toList with
  | '-' :: cs => -(((digitsToNat cs).getD 0 : ℕ) : ℤ)
  | '+' :: cs => (((digitsToNat cs).getD 0 : ℕ) : ℤ)
  | cs => (((digitsToNat cs).getD 0 : ℕ) : ℤ)

/-- Column `j` of a serialized table. -/
def colCells (rows : List (List String)) (j : ℕ) : List String :=
  rows.map fun r => r.getD j ""

/-- `read_csv` types column `j` as int64: every cell an integer literal. -/
def colIsInt (rows : List (List String)) (j : ℕ) : Bool :=
  (colCells rows j).all isIntLitB

/-- `read_csv` types column `j` as float64: every cell a numeral or empty. -/
def colIsNum (rows : List (List String)) (j : ℕ) : Bool :=
  (colCells rows j).all isNumLitB

/-- One cell as `read_csv` delivers it, given its column's inferred dtype. -/
def inferCell (isInt isNum : Bool) (s : String) : Cell :=
  if isInt then Cell.intg (intLitVal s)
  else if isNum then Cell.ev (parseEV s)
  else if s.isEmpty then Cell.ev EV.nan
  else Cell.str s

/-- A row of cells as a Record (same field order as `exportRow`). -/
def cellsToRecord : List Cell → Record
  | l :: p :: s :: st :: pp :: rest =>
    { listingNumber := l, sellingPrice := p, squareFootage := s,
      styleCode := st, pricePerSqFt := pp, others := rest }
  | _ =>
    { listingNumber := Cell.str "", sellingPrice := Cell.str "",
      squareFootage := Cell.str "", styleCode := Cell.str "",
      pricePerSqFt := Cell.str "", others := [] }

/-- The `pd.read_csv` loader (comp.py line 36) with per-column dtype
inference: an all-integer-literal column arrives as int64 values, an
all-numeral column as floats, and any other column as object cells (strings,
with empty fields as NaN). -/
def inferLoadTable (rows : List (List String)) : List Record :=
  rows.map fun r =>
    cellsToRecord ((List.range r.length).map fun j =>
      inferCell (colIsInt rows j) (colIsNum rows j) (r.getD j ""))

/-- Whether a cell is a raw string cell. -/
def isStrCell : Cell → Bool
  | Cell.str _ => true
  | _ => false

/-- A raw record as the Loader produces it: every field a raw string. -/
def rawRecord (r : Record) : Bool :=
  isStrCell r.listingNumber && isStrCell r.sellingPrice && isStrCell r.squareFootage &&
    isStrCell r.styleCode && isStrCell r.pricePerSqFt && r.others.all isStrCell

/-- A raw table: every record raw. -/
def rawTable (df : List Record) : Bool :=
  df.all rawRecord

/-- A rational is decimal-representable: some power of ten clears
its denominator.  Every value `pd.to_numeric` can produce satisfies this. -/
def decRep (q : ℚ) : Prop :=
  ∃ (n : ℤ) (k : ℕ), q * 10 ^ k = (n : ℚ)

end Comp

/-! # Helper lemmas -/

namespace Comp

theorem natDigitsAux_eq (fuel : ℕ) :
    ∀ n : ℕ, n ≤ fuel → natDigitsAux fuel n = Nat.digits 10 n := by
  induction fuel with
  | zero =>
    intro n hn
    interval_cases n
    simp [natDigitsAux]
  | succ fuel ih =>
    intro n hn
    cases n with
    | zero => simp [natDigitsAux]
    | succ m =>
      rw [natDigitsAux, Nat.digits_def' (by norm_num : (1:ℕ) < 10) (Nat.succ_pos m),
        ih ((m + 1) / 10) ?_]
      have h10 : (m + 1) / 10 < m + 1 := Nat.div_lt_self (Nat.succ_pos m) (by norm_num)
      omega

theorem natDigits_eq (n : ℕ) : natDigits n = Nat.digits 10 n :=
  natDigitsAux_eq n n le_rfl

theorem charDigit_digitChar {d : ℕ} (hd : d < 10) : charDigit (digitChar d) = some d := by
  interval_cases d <;> rfl

theorem digitChar_ne_dot {d : ℕ} (hd : d < 10) : digitChar d ≠ '.' := by
  interval_cases d <;> decide

theorem digitChar_ne_comma {d : ℕ} (hd : d < 10) : digitChar d ≠ ',' := by
  interval_cases d <;> decide

theorem digitChar_ne_minus {d : ℕ} (hd : d < 10) : digitChar d ≠ '-' := by
  interval_cases d <;> decide

theorem digitChar_ne_plus {d : ℕ} (hd : d < 10) : digitChar d ≠ '+' := by
  interval_cases d <;> decide

theorem charsDigits_map_digitChar :
    ∀ ds : List ℕ, (∀ d ∈ ds, d < 10) → charsDigits (ds.map digitChar) = some ds := by
  intro ds
  induction ds with
  | nil => intro _; rfl
  | cons d ds ih =>
    intro h
    have hd : d < 10 := h d (List.mem_cons_self d ds)
    have hds := ih fun x hx => h x (List.mem_cons_of_mem d hx)
    simp only [List.map_cons, charsDigits, charDigit_digitChar hd, hds]

theorem charsDigits_append {as bs : List Char} {xs ys : List ℕ}
    (ha : charsDigits as = some xs) (hb : charsDigits bs = some ys) :
    charsDigits (as ++ bs) = some (xs ++ ys) := by
  induction as generalizing xs with
  | nil =>
    simp only [charsDigits, Option.some.injEq] at ha
    simpa [← ha] using hb
  | cons a as ih =>
    cases hd : charDigit a with
    | none => simp [charsDigits, hd] at ha
    | some d =>
      cases hds : charsDigits as with
      | none => simp [charsDigits, hd, hds] at ha
      | some ds =>
        simp only [charsDigits, hd, hds, Option.some.injEq] at ha
        simp only [List.cons_append, charsDigits, hd, List.append_eq, ih hds, ← ha]

theorem charsDigits_replicate_zero (j : ℕ) :
    charsDigits (List.replicate j '0') = some (List.replicate j 0) := by
  induction j with
  | zero => rfl
  | succ j ih =>
    have h0 : charDigit '0' = some 0 := rfl
    simp only [List.replicate_succ, charsDigits, h0, ih]

theorem ofDigits_replicate_zero (j : ℕ) : Nat.ofDigits 10 (List.replicate j 0) = 0 := by
  induction j with
  | zero => rfl
  | succ j ih => simp [List.replicate_succ, Nat.ofDigits_cons, ih]

theorem charsDigits_natChars (n : ℕ) :
    charsDigits (natChars n) = some (Nat.digits 10 n).reverse := by
  unfold natChars
  rw [natDigits_eq, ← List.map_reverse]
  exact charsDigits_map_digitChar _ fun d hd =>
    Nat.digits_lt_base (by norm_num) (List.mem_reverse.mp hd)

theorem digitsToNat_natChars (n : ℕ) : digitsToNat (natChars n) = some n := by
  unfold digitsToNat
  rw [charsDigits_natChars]
  simp [Nat.ofDigits_digits]

theorem digitsToNat_padZeros_natChars (k n : ℕ) :
    digitsToNat (padZeros k (natChars n)) = some n := by
  unfold digitsToNat padZeros
  rw [charsDigits_append (charsDigits_replicate_zero _) (charsDigits_natChars n)]
  simp [List.reverse_append, Nat.ofDigits_append, Nat.ofDigits_digits, ofDigits_replicate_zero]

theorem natChars_length (n : ℕ) : (natChars n).length = (Nat.digits 10 n).length := by
  simp [natChars, natDigits_eq]

theorem natChars_length_le {n k : ℕ} (h : n < 10 ^ k) : (natChars n).length ≤ k := by
  rw [natChars_length]
  by_cases hn : n = 0
  · simp [hn]
  · by_contra hlt
    push_neg at hlt
    have h1 : 10 ^ (Nat.digits 10 n).length ≤ 10 * n :=
      Nat.base_pow_length_digits_le 10 n (by norm_num) hn
    have h2 : 10 ^ (k + 1) ≤ 10 ^ (Nat.digits 10 n).length :=
      Nat.pow_le_pow_right (by norm_num) hlt
    have h3 : 10 * 10 ^ k ≤ 10 * n := by
      calc 10 * 10 ^ k = 10 ^ (k + 1) := by ring
      _ ≤ 10 ^ (Nat.digits 10 n).length := h2
      _ ≤ 10 * n := h1
    omega

theorem padZeros_length {cs : List Char} {k : ℕ} (h : cs.length ≤ k) :
    (padZeros k cs).length = k := by
  simp [padZeros]
  omega

end Comp

namespace Comp

theorem splitDot_append {A B : List Char} (h : '.' ∉ A) :
    splitDot (A ++ '.' :: B) = (A, some B) := by
  induction A with
  | nil => simp [splitDot]
  | cons a as ih =>
    have ha : a ≠ '.' := fun hc => h (hc ▸ List.mem_cons_self a as)
    have hs : '.' ∉ as := fun hc => h (List.mem_cons_of_mem a hc)
    simp [splitDot, ha, ih hs]

theorem mem_natChars {c : Char} {n : ℕ} (h : c ∈ natChars n) :
    ∃ d, d < 10 ∧ c = digitChar d := by
  unfold natChars at h
  rw [natDigits_eq] at h
  have h' := List.mem_reverse.mp h
  rcases List.mem_map.mp h' with ⟨d, hd, rfl⟩
  exact ⟨d, Nat.digits_lt_base (by norm_num) hd, rfl⟩

theorem mem_natStr {c : Char} {n : ℕ} (h : c ∈ natStr n) :
    ∃ d, d < 10 ∧ c = digitChar d := by
  unfold natStr at h
  by_cases hn : n = 0
  · rw [if_pos hn] at h
    simp only [List.mem_singleton] at h
    exact ⟨0, by norm_num, by rw [h]; rfl⟩
  · rw [if_neg hn] at h
    exact mem_natChars h

theorem mem_padZeros_natChars {c : Char} {k n : ℕ} (h : c ∈ padZeros k (natChars n)) :
    ∃ d, d < 10 ∧ c = digitChar d := by
  unfold padZeros at h
  rcases List.mem_append.mp h with h | h
  · have hz := List.eq_of_mem_replicate h
    exact ⟨0, by norm_num, by rw [hz]; rfl⟩
  · exact mem_natChars h

theorem natStr_ne_nil (n : ℕ) : natStr n ≠ [] := by
  unfold natStr
  by_cases hn : n = 0
  · simp [hn]
  · rw [if_neg hn]
    unfold natChars
    simp [natDigits_eq, Nat.digits_ne_nil_iff_ne_zero.mpr hn]

theorem digitsToNat_natStr (n : ℕ) : digitsToNat (natStr n) = some n := by
  unfold natStr
  by_cases hn : n = 0
  · rw [if_pos hn, hn]
    rfl
  · rw [if_neg hn]
    exact digitsToNat_natChars n

theorem digitChar_ne_e {d : ℕ} (hd : d < 10) : digitChar d ≠ 'e' := by
  interval_cases d <;> decide

theorem digitChar_ne_E {d : ℕ} (hd : d < 10) : digitChar d ≠ 'E' := by
  interval_cases d <;> decide

theorem digitChar_not_space {d : ℕ} (hd : d < 10) : isSpaceChar (digitChar d) = false := by
  interval_cases d <;> decide

theorem splitExp_none {cs : List Char} (h : ∀ c ∈ cs, ¬(c = 'e' ∨ c = 'E')) :
    splitExp cs = (cs, none) := by
  induction cs with
  | nil => rfl
  | cons a as ih =>
    have ha : ¬(a = 'e' ∨ a = 'E') := h a (List.mem_cons_self a as)
    have has : ∀ c ∈ as, ¬(c = 'e' ∨ c = 'E') := fun c hc => h c (List.mem_cons_of_mem a hc)
    simp [splitExp, ha, ih has]

theorem isInfChars_of_dot {cs : List Char} (h : '.' ∈ cs) : isInfChars cs = false := by
  unfold isInfChars
  have hmem : '.' ∈ cs.map lowerAscii := by
    have hld : lowerAscii '.' = '.' := by decide
    rw [← hld]
    exact List.mem_map_of_mem lowerAscii h
  have h1 : ¬(cs.map lowerAscii = ['i', 'n', 'f']) := fun he => by
    rw [he] at hmem
    exact absurd hmem (by decide)
  have h2 : ¬(cs.map lowerAscii = ['i', 'n', 'f', 'i', 'n', 'i', 't', 'y']) := fun he => by
    rw [he] at hmem
    exact absurd hmem (by decide)
  rw [decide_eq_false h1, decide_eq_false h2]
  rfl

theorem dropWhile_all_false {p : Char → Bool} {cs : List Char}
    (h : ∀ c ∈ cs, p c = false) : cs.dropWhile p = cs := by
  cases cs with
  | nil => rfl
  | cons a as =>
    rw [List.dropWhile_cons, h a (List.mem_cons_self a as)]
    rfl

theorem trimChars_eq_self {cs : List Char} (h : ∀ c ∈ cs, isSpaceChar c = false) :
    trimChars cs = cs := by
  unfold trimChars
  rw [dropWhile_all_false h,
    dropWhile_all_false fun c hc => h c (List.mem_reverse.mp hc)]
  exact List.reverse_reverse cs

theorem parseEV_mk_cons (c : Char) (rest : List Char)
    (h : ∀ x ∈ c :: rest, isSpaceChar x = false) :
    parseEV (String.mk (c :: rest)) =
      if c = '-' then negEV (parseUnsignedInf rest)
      else if c = '+' then parseUnsignedInf rest
      else parseUnsignedInf (c :: rest) := by
  unfold parseEV
  show parseEVList (trimChars (c :: rest)) = _
  rw [trimChars_eq_self h]
  rfl

theorem parseMantissa_render (I F K : ℕ) (hF : F < 10 ^ K) :
    parseMantissa (natStr I ++ '.' :: padZeros K (natChars F)) =
      EV.num (((I : ℚ) * 10 ^ K + (F : ℚ)) / 10 ^ K) := by
  have hnodot : '.' ∉ natStr I := by
    intro hc
    rcases mem_natStr hc with ⟨d, hd, hcd⟩
    exact digitChar_ne_dot hd hcd.symm
  have hsplit := splitDot_append (B := padZeros K (natChars F)) hnodot
  have hlen : (padZeros K (natChars F)).length = K :=
    padZeros_length (natChars_length_le hF)
  have hne : (natStr I).isEmpty = false := by
    cases hcons : natStr I with
    | nil => exact absurd hcons (natStr_ne_nil I)
    | cons c cs => rfl
  unfold parseMantissa
  rw [hsplit]
  show parseParts (natStr I) (padZeros K (natChars F)) = _
  unfold parseParts
  rw [hne, digitsToNat_natStr, digitsToNat_padZeros_natChars, hlen]
  simp

theorem mem_render_core {c : Char} {I K F : ℕ}
    (hc : c ∈ natStr I ++ '.' :: padZeros K (natChars F)) :
    c = '.' ∨ ∃ d, d < 10 ∧ c = digitChar d := by
  rcases List.mem_append.mp hc with h1 | h1
  · exact Or.inr (mem_natStr h1)
  · rcases List.mem_cons.mp h1 with h2 | h2
    · exact Or.inl h2
    · exact Or.inr (mem_padZeros_natChars h2)

theorem parseUnsignedInf_render (I F K : ℕ) (hF : F < 10 ^ K) :
    parseUnsignedInf (natStr I ++ '.' :: padZeros K (natChars F)) =
      EV.num (((I : ℚ) * 10 ^ K + (F : ℚ)) / 10 ^ K) := by
  have hdot : '.' ∈ natStr I ++ '.' :: padZeros K (natChars F) :=
    List.mem_append.mpr (Or.inr (List.mem_cons_self _ _))
  have hnoe : ∀ c ∈ natStr I ++ '.' :: padZeros K (natChars F), ¬(c = 'e' ∨ c = 'E') := by
    intro c hc hor
    rcases mem_render_core hc with h | ⟨d, hd, rfl⟩
    · rcases hor with h' | h' <;> (rw [h] at h'; exact absurd h' (by decide))
    · rcases hor with h' | h'
      · exact digitChar_ne_e hd h'
      · exact digitChar_ne_E hd h'
  unfold parseUnsignedInf
  rw [isInfChars_of_dot hdot]
  show parseUnsigned (natStr I ++ '.' :: padZeros K (natChars F)) = _
  unfold parseUnsigned
  rw [splitExp_none hnoe]
  show parseMantissa (natStr I ++ '.' :: padZeros K (natChars F)) = _
  exact parseMantissa_render I F K hF

end Comp

namespace Comp

theorem dvd_ten_pow {d k : ℕ} (h : d ∣ 10 ^ k) : d ∣ 10 ^ d := by
  have h10 : (10 : ℕ) ^ k = 2 ^ k * 5 ^ k := by
    rw [← Nat.mul_pow]
  rw [h10] at h
  obtain ⟨d1, d2, h1, h2, rfl⟩ := exists_dvd_and_dvd_of_dvd_mul h
  obtain ⟨a, _, rfl⟩ := (Nat.dvd_prime_pow Nat.prime_two).mp h1
  obtain ⟨b, _, rfl⟩ := (Nat.dvd_prime_pow (by norm_num)).mp h2
  have h2a : 2 ^ a ≤ 2 ^ a * 5 ^ b := Nat.le_mul_of_pos_right _ (by positivity)
  have h5b : 5 ^ b ≤ 2 ^ a * 5 ^ b := Nat.le_mul_of_pos_left _ (by positivity)
  have haa : a ≤ 2 ^ a * 5 ^ b := le_trans (Nat.le_of_lt (Nat.lt_two_pow a)) h2a
  have hbb : b ≤ 2 ^ a * 5 ^ b := by
    have hb5 : b < 5 ^ b :=
      lt_of_lt_of_le (Nat.lt_two_pow b) (Nat.pow_le_pow_left (by norm_num) b)
    omega
  calc 2 ^ a * 5 ^ b
      ∣ 2 ^ (2 ^ a * 5 ^ b) * 5 ^ (2 ^ a * 5 ^ b) :=
        mul_dvd_mul (pow_dvd_pow 2 haa) (pow_dvd_pow 5 hbb)
    _ = 10 ^ (2 ^ a * 5 ^ b) := by rw [← Nat.mul_pow]

theorem den_dvd_of_decRep {q : ℚ} (h : decRep q) : ∃ k, q.den ∣ 10 ^ k := by
  obtain ⟨n, k, hk⟩ := h
  refine ⟨k, ?_⟩
  have h10 : ((10 : ℚ) ^ k : ℚ) ≠ 0 := by positivity
  have hq : q = Rat.divInt n (10 ^ k) := by
    rw [Rat.divInt_eq_div]
    push_cast
    rw [eq_div_iff h10]
    exact hk
  have hdvd := Rat.den_dvd n (10 ^ k)
  rw [← hq] at hdvd
  have : (q.den : ℤ) ∣ ((10 ^ k : ℕ) : ℤ) := by
    push_cast
    exact hdvd
  exact_mod_cast this

theorem den_dvd_mul_eq_one {q : ℚ} {D : ℕ} (h : q.den ∣ D) : (q * (D : ℚ)).den = 1 := by
  obtain ⟨c, hc⟩ := h
  have hden : ((q.den : ℚ)) ≠ 0 := by
    exact_mod_cast q.den_nz
  have hqD : q * (D : ℚ) = ((q.num * c : ℤ) : ℚ) := by
    rw [hc]
    push_cast
    rw [← mul_assoc, Rat.mul_den_eq_num]
  rw [hqD, Rat.den_intCast]

theorem decRep_mul_den {q : ℚ} (h : decRep q) : (q * 10 ^ q.den).den = 1 := by
  obtain ⟨k, hk⟩ := den_dvd_of_decRep h
  have hdvd : q.den ∣ 10 ^ q.den := dvd_ten_pow hk
  have := den_dvd_mul_eq_one hdvd
  have hcast : (((10 : ℕ) ^ q.den : ℕ) : ℚ) = (10 : ℚ) ^ q.den := by
    push_cast
    ring
  rwa [hcast] at this

end Comp

namespace Comp

theorem parseEV_render_core (m : ℤ) (K : ℕ) :
    parseEV (if m < 0 then
        String.mk ('-' :: (natStr (m.natAbs / 10 ^ K) ++
          '.' :: padZeros K (natChars (m.natAbs % 10 ^ K))))
      else
        String.mk (natStr (m.natAbs / 10 ^ K) ++
          '.' :: padZeros K (natChars (m.natAbs % 10 ^ K)))) =
      EV.num ((m : ℚ) / 10 ^ K) := by
  have hpow_pos : 0 < 10 ^ K := Nat.pos_pow_of_pos K (by norm_num)
  have hmod : m.natAbs % 10 ^ K < 10 ^ K := Nat.mod_lt _ hpow_pos
  have hdm : m.natAbs / 10 ^ K * 10 ^ K + m.natAbs % 10 ^ K = m.natAbs := by
    rw [Nat.mul_comm]
    exact Nat.div_add_mod m.natAbs (10 ^ K)
  have hnum : ((m.natAbs / 10 ^ K : ℕ) : ℚ) * 10 ^ K + ((m.natAbs % 10 ^ K : ℕ) : ℚ)
      = (m.natAbs : ℚ) := by
    have hcast : ((m.natAbs / 10 ^ K * 10 ^ K + m.natAbs % 10 ^ K : ℕ) : ℚ)
        = (m.natAbs : ℚ) := by
      exact_mod_cast congrArg (fun x : ℕ => (x : ℚ)) hdm
    push_cast at hcast
    linarith [hcast]
  have hval : parseUnsignedInf (natStr (m.natAbs / 10 ^ K) ++
      '.' :: padZeros K (natChars (m.natAbs % 10 ^ K))) = EV.num ((m.natAbs : ℚ) / 10 ^ K) := by
    rw [parseUnsignedInf_render (m.natAbs / 10 ^ K) (m.natAbs % 10 ^ K) K hmod, hnum]
  have hspace : ∀ x ∈ natStr (m.natAbs / 10 ^ K) ++
      '.' :: padZeros K (natChars (m.natAbs % 10 ^ K)), isSpaceChar x = false := by
    intro x hx
    rcases mem_render_core hx with h | ⟨d, hd, rfl⟩
    · rw [h]
      decide
    · exact digitChar_not_space hd
  have hsm : ∀ x ∈ '-' :: (natStr (m.natAbs / 10 ^ K) ++
      '.' :: padZeros K (natChars (m.natAbs % 10 ^ K))), isSpaceChar x = false := by
    intro x hx
    rcases List.mem_cons.mp hx with h | h
    · rw [h]
      decide
    · exact hspace x h
  obtain ⟨c, tl, hcons⟩ : ∃ c tl, natStr (m.natAbs / 10 ^ K) = c :: tl := by
    cases hns : natStr (m.natAbs / 10 ^ K) with
    | nil => exact absurd hns (natStr_ne_nil _)
    | cons c tl => exact ⟨c, tl, rfl⟩
  obtain ⟨d, hd, hcd⟩ := mem_natStr (n := m.natAbs / 10 ^ K)
    (c := c) (by rw [hcons]; exact List.mem_cons_self c tl)
  have hc1 : ¬(c = '-') := by rw [hcd]; exact digitChar_ne_minus hd
  have hc2 : ¬(c = '+') := by rw [hcd]; exact digitChar_ne_plus hd
  have hrecons : c :: (tl ++ '.' :: padZeros K (natChars (m.natAbs % 10 ^ K)))
      = natStr (m.natAbs / 10 ^ K) ++ '.' :: padZeros K (natChars (m.natAbs % 10 ^ K)) := by
    rw [hcons]
    rfl
  have hsc : ∀ x ∈ c :: (tl ++ '.' :: padZeros K (natChars (m.natAbs % 10 ^ K))),
      isSpaceChar x = false := fun x hx => hspace x (hrecons ▸ hx)
  by_cases hneg : m < 0
  · rw [if_pos hneg, parseEV_mk_cons '-' _ hsm, if_pos rfl, hval]
    have habs : (m.natAbs : ℚ) = -(m : ℚ) := by
      rw [Int.cast_natAbs, abs_of_neg hneg]
      push_cast
      ring
    simp only [negEV, habs]
    congr 1
    ring
  · rw [if_neg hneg, hcons, List.cons_append, parseEV_mk_cons c _ hsc,
      if_neg hc1, if_neg hc2, hrecons, hval]
    have habs : (m.natAbs : ℚ) = (m : ℚ) := by
      rw [Int.cast_natAbs, abs_of_nonneg (not_lt.mp hneg)]
    rw [habs]

theorem renderQ_parse {q : ℚ} (h : decRep q) : parseEV (renderQ q) = EV.num q := by
  have hden1 : (q * 10 ^ q.den).den = 1 := decRep_mul_den h
  have hqm : (((q * 10 ^ q.den).num : ℤ) : ℚ) = q * 10 ^ q.den :=
    (Rat.den_eq_one_iff _).mp hden1
  have h10K : ((10 : ℚ) ^ q.den) ≠ 0 := by positivity
  have hq : ((q * 10 ^ q.den).num : ℚ) / 10 ^ q.den = q := by
    rw [hqm]
    field_simp
  unfold renderQ
  rw [parseEV_render_core, hq]

end Comp

namespace Comp

theorem parseMantissa_cases (cs : List Char) :
    parseMantissa cs = EV.nan ∨ ∃ q : ℚ, parseMantissa cs = EV.num q ∧ decRep q := by
  rcases hsp : splitDot cs with ⟨ip, fpo⟩
  unfold parseMantissa
  rw [hsp]
  cases fpo with
  | none =>
    by_cases he : cs.isEmpty
    · left
      simp [he]
    · cases hd : digitsToNat ip with
      | none =>
        left
        simp [he, hd]
      | some n =>
        right
        exact ⟨(n : ℚ), by simp [he, hd], ⟨(n : ℤ), 0, by push_cast; ring⟩⟩
  | some fp =>
    show parseParts ip fp = EV.nan ∨ _
    unfold parseParts
    by_cases he : (ip.isEmpty && fp.isEmpty) = true
    · left
      simp [he]
    · cases hd1 : digitsToNat ip with
      | none =>
        left
        simp [he, hd1]
      | some n =>
        cases hd2 : digitsToNat fp with
        | none =>
          left
          simp [he, hd1, hd2]
        | some f =>
          right
          refine ⟨((n : ℚ) * 10 ^ fp.length + (f : ℚ)) / 10 ^ fp.length,
            by simp [he, hd1, hd2], ?_⟩
          refine ⟨((n : ℤ) * 10 ^ fp.length + (f : ℤ)), fp.length, ?_⟩
          have h10 : ((10 : ℚ) ^ fp.length) ≠ 0 := by positivity
          rw [div_mul_cancel₀ _ h10]
          push_cast
          ring

theorem decRep_zpow {q : ℚ} (h : decRep q) (ex : ℤ) : decRep (q * 10 ^ ex) := by
  obtain ⟨n, k, hk⟩ := h
  cases ex with
  | ofNat e =>
    refine ⟨n * 10 ^ e, k, ?_⟩
    simp only [Int.ofNat_eq_natCast, zpow_natCast]
    push_cast
    rw [← hk]
    ring
  | negSucc e =>
    refine ⟨n, k + (e + 1), ?_⟩
    rw [zpow_negSucc, ← hk]
    have h10 : ((10 : ℚ) ^ (e + 1)) ≠ 0 := by positivity
    field_simp
    ring

theorem parseUnsigned_cases (cs : List Char) :
    parseUnsigned cs = EV.nan ∨ ∃ q : ℚ, parseUnsigned cs = EV.num q ∧ decRep q := by
  rcases hse : splitExp cs with ⟨mant, expo⟩
  cases expo with
  | none =>
    have hrw : parseUnsigned cs = parseMantissa cs := by
      unfold parseUnsigned
      rw [hse]
    rw [hrw]
    exact parseMantissa_cases cs
  | some es =>
    rcases parseMantissa_cases mant with h | ⟨q, hq, hrep⟩
    · cases he : parseExpInt es with
      | none =>
        refine Or.inl ?_
        unfold parseUnsigned
        rw [hse]
        simp only [h, he]
      | some ex =>
        refine Or.inl ?_
        unfold parseUnsigned
        rw [hse]
        simp only [h, he]
    · cases he : parseExpInt es with
      | none =>
        refine Or.inl ?_
        unfold parseUnsigned
        rw [hse]
        simp only [hq, he]
      | some ex =>
        refine Or.inr ⟨q * 10 ^ ex, ?_, decRep_zpow hrep ex⟩
        unfold parseUnsigned
        rw [hse]
        simp only [hq, he]

theorem parseUnsignedInf_cases (cs : List Char) :
    parseUnsignedInf cs = EV.nan ∨ parseUnsignedInf cs = EV.inf ∨
      ∃ q : ℚ, parseUnsignedInf cs = EV.num q ∧ decRep q := by
  unfold parseUnsignedInf
  by_cases hi : isInfChars cs = true
  · rw [if_pos hi]
    exact Or.inr (Or.inl rfl)
  · rw [if_neg hi]
    rcases parseUnsigned_cases cs with h | ⟨q, hq, hrep⟩
    · exact Or.inl h
    · exact Or.inr (Or.inr ⟨q, hq, hrep⟩)

theorem parseEVList_cases (cs : List Char) :
    parseEVList cs = EV.nan ∨ parseEVList cs = EV.inf ∨ parseEVList cs = EV.ninf ∨
      ∃ q : ℚ, parseEVList cs = EV.num q ∧ decRep q := by
  cases cs with
  | nil => exact Or.inl rfl
  | cons c rest =>
    have heq : parseEVList (c :: rest) =
        if c = '-' then negEV (parseUnsignedInf rest)
        else if c = '+' then parseUnsignedInf rest
        else parseUnsignedInf (c :: rest) := rfl
    rw [heq]
    by_cases hc1 : c = '-'
    · rw [if_pos hc1]
      rcases parseUnsignedInf_cases rest with h | h | ⟨q, hq, hrep⟩
      · rw [h]
        exact Or.inl rfl
      · rw [h]
        exact Or.inr (Or.inr (Or.inl rfl))
      · rw [hq]
        refine Or.inr (Or.inr (Or.inr ⟨-q, rfl, ?_⟩))
        obtain ⟨n, k, hk⟩ := hrep
        refine ⟨-n, k, ?_⟩
        push_cast
        linarith [hk]
    · rw [if_neg hc1]
      by_cases hc2 : c = '+'
      · rw [if_pos hc2]
        rcases parseUnsignedInf_cases rest with h | h | ⟨q, hq, hrep⟩
        · exact Or.inl h
        · exact Or.inr (Or.inl h)
        · exact Or.inr (Or.inr (Or.inr ⟨q, hq, hrep⟩))
      · rw [if_neg hc2]
        rcases parseUnsignedInf_cases (c :: rest) with h | h | ⟨q, hq, hrep⟩
        · exact Or.inl h
        · exact Or.inr (Or.inl h)
        · exact Or.inr (Or.inr (Or.inr ⟨q, hq, hrep⟩))

theorem parseEV_cases (s : String) :
    parseEV s = EV.nan ∨ parseEV s = EV.inf ∨ parseEV s = EV.ninf ∨
      ∃ q : ℚ, parseEV s = EV.num q ∧ decRep q := by
  unfold parseEV
  exact parseEVList_cases (trimChars s.toList)

theorem parseEV_decRep {s : String} {q : ℚ} (h : parseEV s = EV.num q) : decRep q := by
  rcases parseEV_cases s with h' | h' | h' | ⟨q', hq', hrep⟩
  · rw [h] at h'
    cases h'
  · rw [h] at h'
    cases h'
  · rw [h] at h'
    cases h'
  · rw [h] at hq'
    injection hq' with e
    rw [e]
    exact hrep

end Comp

namespace Comp

theorem mk_toList (L : List Char) : (String.mk L).toList = L := rfl

theorem stripCommasStr_idem (s : String) :
    stripCommasStr (stripCommasStr s) = stripCommasStr s := by
  unfold stripCommasStr
  rw [mk_toList, List.filter_filter]
  simp

theorem stripCommasStr_no_comma {s : String} (h : ∀ c ∈ s.toList, c ≠ ',') :
    stripCommasStr s = s := by
  unfold stripCommasStr
  rw [List.filter_eq_self.mpr fun a ha => by simpa using h a ha]
  rfl

theorem renderQ_no_comma (q : ℚ) : stripCommasStr (renderQ q) = renderQ q := by
  apply stripCommasStr_no_comma
  intro c hc
  unfold renderQ at hc
  have hcore : ∀ hc' : c ∈ natStr ((q * 10 ^ q.den).num.natAbs / 10 ^ q.den) ++
      '.' :: padZeros q.den (natChars ((q * 10 ^ q.den).num.natAbs % 10 ^ q.den)), c ≠ ',' := by
    intro hc'
    rcases List.mem_append.mp hc' with h1 | h1
    · rcases mem_natStr h1 with ⟨d, hd, rfl⟩
      exact digitChar_ne_comma hd
    · rcases List.mem_cons.mp h1 with h2 | h2
      · rw [h2]
        decide
      · rcases mem_padZeros_natChars h2 with ⟨d, hd, rfl⟩
        exact digitChar_ne_comma hd
  by_cases hneg : (q * 10 ^ q.den).num < 0
  · rw [if_pos hneg, mk_toList] at hc
    rcases List.mem_cons.mp hc with h2 | h2
    · rw [h2]
      decide
    · exact hcore h2
  · rw [if_neg hneg, mk_toList] at hc
    exact hcore hc

theorem stripCommas_renderQ (q : ℚ) :
    stripCommas (Cell.str (renderQ q)) = Cell.str (renderQ q) := by
  show Cell.str (stripCommasStr (renderQ q)) = Cell.str (renderQ q)
  rw [renderQ_no_comma]

theorem normalizeRecord_idem (r : Record) :
    normalizeRecord (normalizeRecord r) = normalizeRecord r := by
  have hlist : stripCommas (astypeStr (stripCommas (astypeStr r.listingNumber)))
      = stripCommas (astypeStr r.listingNumber) := by
    have hstr : ∀ s : String, stripCommas (astypeStr (Cell.str (stripCommasStr s)))
        = Cell.str (stripCommasStr s) := by
      intro s
      show Cell.str (stripCommasStr (stripCommasStr s)) = Cell.str (stripCommasStr s)
      rw [stripCommasStr_idem]
    cases r.listingNumber with
    | str s => exact hstr s
    | intg n => exact hstr (intStrZ n)
    | ev v => cases v with
      | num q => exact hstr (renderQ q)
      | nan => exact hstr "nan"
      | inf => exact hstr "inf"
      | ninf => exact hstr "-inf"
  exact Record.ext hlist rfl rfl rfl rfl rfl

end Comp

namespace Comp

theorem sumEV_map_num (qs : List ℚ) : sumEV (qs.map EV.num) = EV.num qs.sum := by
  induction qs with
  | nil => rfl
  | cons q qs ih =>
    show EV.add (EV.num q) (sumEV (qs.map EV.num)) = EV.num (q :: qs).sum
    rw [ih, List.sum_cons]
    rfl

theorem dropNa_idem (l : List EV) : dropNa (dropNa l) = dropNa l := by
  unfold dropNa
  rw [List.filter_filter]
  simp

theorem meanEV_dropNa (l : List EV) : meanEV l = meanEV (dropNa l) := by
  unfold meanEV
  rw [dropNa_idem]

theorem meanEV_nil_nan (l : List EV) (h : dropNa l = []) : meanEV l = EV.nan := by
  unfold meanEV
  rw [h]
  rfl

theorem EV_div_num (a b : ℚ) (hb : b ≠ 0) : EV.div (EV.num a) (EV.num b) = EV.num (a / b) := by
  show (if b ≠ 0 then EV.num (a / b)
    else if 0 < a then EV.inf else if a < 0 then EV.ninf else EV.nan) = EV.num (a / b)
  rw [if_pos hb]

theorem EV_div_num_zero (a : ℚ) : EV.div (EV.num a) (EV.num 0) =
    if 0 < a then EV.inf else if a < 0 then EV.ninf else EV.nan := by
  show (if (0 : ℚ) ≠ 0 then EV.num (a / 0)
    else if 0 < a then EV.inf else if a < 0 then EV.ninf else EV.nan) = _
  rw [if_neg (by simp : ¬(0 : ℚ) ≠ 0)]

theorem EV_mul_inf_100 : EV.mul EV.inf (EV.num 100) = EV.inf := by
  show (if (0 : ℚ) < 100 then EV.inf else if (100 : ℚ) < 0 then EV.ninf else EV.nan) = EV.inf
  rw [if_pos (by norm_num : (0 : ℚ) < 100)]

theorem EV_mul_ninf_100 : EV.mul EV.ninf (EV.num 100) = EV.ninf := by
  show (if (0 : ℚ) < 100 then EV.ninf else if (100 : ℚ) < 0 then EV.inf else EV.nan) = EV.ninf
  rw [if_pos (by norm_num : (0 : ℚ) < 100)]

theorem meanEV_num {qs : List ℚ} {l : List EV} (h : dropNa l = qs.map EV.num)
    (hne : qs ≠ []) : meanEV l = EV.num (qs.sum / qs.length) := by
  unfold meanEV
  rw [h]
  have hlen0 : (qs.map EV.num).length ≠ 0 := by
    rw [List.length_map]
    exact fun hc => hne (List.length_eq_zero.mp hc)
  rw [if_neg hlen0, sumEV_map_num]
  have hcast : ((qs.map EV.num).length : ℚ) ≠ 0 := by
    exact_mod_cast hlen0
  rw [EV_div_num _ _ hcast, List.length_map]

theorem EV_sub_nan (a : EV) : EV.sub a EV.nan = EV.nan := by
  cases a <;> rfl

theorem premiumEV_nan (a : EV) : premiumEV a EV.nan = EV.nan := by
  cases a <;> rfl

theorem premiumEV_zero (a : ℚ) :
    premiumEV (EV.num a) (EV.num 0) =
      if 0 < a then EV.inf else if a < 0 then EV.ninf else EV.nan := by
  unfold premiumEV
  show EV.mul (EV.div (EV.num (a - 0)) (EV.num 0)) (EV.num 100) = _
  rw [sub_zero, EV_div_num_zero]
  by_cases ha : 0 < a
  · rw [if_pos ha]
    exact EV_mul_inf_100
  · rw [if_neg ha]
    by_cases ha' : a < 0
    · rw [if_pos ha']
      exact EV_mul_ninf_100
    · rw [if_neg ha']
      rfl

theorem filter_or_perm {α : Type} (p q : α → Bool) (l : List α)
    (hdisj : ∀ x, ¬(p x = true ∧ q x = true)) :
    (l.filter p ++ l.filter q).Perm (l.filter fun x => p x || q x) := by
  induction l with
  | nil => exact List.Perm.refl _
  | cons a l ih =>
    rw [List.filter_cons, List.filter_cons, List.filter_cons]
    by_cases hp : p a = true
    · have hq : ¬(q a = true) := fun hq => hdisj a ⟨hp, hq⟩
      rw [if_pos hp, if_neg hq, if_pos (show (p a || q a) = true by rw [hp]; rfl),
        List.cons_append]
      exact ih.cons a
    · by_cases hq : q a = true
      · rw [if_neg hp, if_pos hq, if_pos (show (p a || q a) = true by rw [hq, Bool.or_true])]
        exact List.perm_middle.trans (ih.cons a)
      · rw [if_neg hp, if_neg hq, if_neg (show ¬((p a || q a) = true) by
          rw [Bool.or_eq_true]; tauto)]
        exact ih

theorem isStrCell_iff {c : Cell} : isStrCell c = true ↔ ∃ s, c = Cell.str s := by
  cases c <;> simp [isStrCell]

theorem map_csv_str (l : List Cell) (h : l.all isStrCell = true) :
    (l.map cellToCsv).map Cell.str = l := by
  induction l with
  | nil => rfl
  | cons c l ih =>
    rw [List.all_cons, Bool.and_eq_true] at h
    obtain ⟨s, rfl⟩ := isStrCell_iff.mp h.1
    show Cell.str (cellToCsv (Cell.str s)) :: (l.map cellToCsv).map Cell.str = _
    rw [ih h.2]
    rfl

theorem reload_parse_cell (s : String) :
    parseEV (stripCommasStr (cellToCsv (Cell.ev (parseEV s)))) = parseEV s := by
  rcases parseEV_cases s with h | h | h | ⟨q, hq, hrep⟩
  · rw [h]
    show parseEV (stripCommasStr "") = EV.nan
    decide
  · rw [h]
    show parseEV (stripCommasStr "inf") = EV.inf
    decide
  · rw [h]
    show parseEV (stripCommasStr "-inf") = EV.ninf
    decide
  · rw [hq]
    show parseEV (stripCommasStr (renderQ q)) = EV.num q
    rw [renderQ_no_comma, renderQ_parse hrep]

end Comp

namespace Comp

theorem normalizeRecord_reload (x : Record) (hx : rawRecord x = true) :
    normalizeRecord (loadRow (exportRow (normalizeRecord x))) = normalizeRecord x := by
  rw [rawRecord, Bool.and_eq_true, Bool.and_eq_true, Bool.and_eq_true, Bool.and_eq_true,
    Bool.and_eq_true] at hx
  obtain ⟨⟨⟨⟨⟨h1, h2⟩, h3⟩, h4⟩, h5⟩, h6⟩ := hx
  obtain ⟨l0, p0, s0, st0, pp0, o0⟩ := x
  obtain ⟨ls, hls⟩ := isStrCell_iff.mp h1
  obtain ⟨ps, hps⟩ := isStrCell_iff.mp h2
  obtain ⟨ss, hss⟩ := isStrCell_iff.mp h3
  obtain ⟨sts, hsts⟩ := isStrCell_iff.mp h4
  obtain ⟨pps, hpps⟩ := isStrCell_iff.mp h5
  simp only at hls hps hss hsts hpps h6
  subst hls hps hss hsts hpps
  apply Record.ext
  · show Cell.str (stripCommasStr (stripCommasStr ls)) = Cell.str (stripCommasStr ls)
    rw [stripCommasStr_idem]
  · show Cell.ev (parseEV (stripCommasStr (cellToCsv (Cell.ev (parseEV (stripCommasStr ps))))))
        = Cell.ev (parseEV (stripCommasStr ps))
    rw [reload_parse_cell]
  · show Cell.ev (parseEV (stripCommasStr (cellToCsv (Cell.ev (parseEV (stripCommasStr ss))))))
        = Cell.ev (parseEV (stripCommasStr ss))
    rw [reload_parse_cell]
  · rfl
  · show Cell.ev (EV.div
        (parseEV (stripCommasStr (cellToCsv (Cell.ev (parseEV (stripCommasStr ps))))))
        (parseEV (stripCommasStr (cellToCsv (Cell.ev (parseEV (stripCommasStr ss)))))))
        = Cell.ev (EV.div (parseEV (stripCommasStr ps)) (parseEV (stripCommasStr ss)))
    rw [reload_parse_cell, reload_parse_cell]
  · show (o0.map cellToCsv).map Cell.str = o0
    exact map_csv_str o0 h6

theorem reload_roundtrip {df : List Record} (h : rawTable df = true) :
    normalizeTable (loadTable (exportCsv (normalizeTable df)))
      = bothStyles (normalizeTable df) := by
  unfold exportCsv loadTable normalizeTable
  rw [List.map_map, List.map_map]
  have hmem : ∀ y ∈ bothStyles (List.map normalizeRecord df),
      ((normalizeRecord ∘ loadRow) ∘ exportRow) y = id y := by
    intro y hy
    have hy' : y ∈ List.map normalizeRecord df := List.mem_of_mem_filter hy
    rcases List.mem_map.mp hy' with ⟨x, hxdf, rfl⟩
    have hraw : rawRecord x = true := by
      rw [rawTable, List.all_eq_true] at h
      exact h x hxdf
    exact normalizeRecord_reload x hraw
  rw [List.map_congr_left hmem, List.map_id]

theorem EV_div_nan_iff (a b : EV) :
    EV.div a b = EV.nan ↔
      a = EV.nan ∨ b = EV.nan ∨ (a = EV.num 0 ∧ b = EV.num 0) ∨
      ((a = EV.inf ∨ a = EV.ninf) ∧ (b = EV.inf ∨ b = EV.ninf)) := by
  cases a with
  | nan => cases b <;> simp [EV.div]
  | inf =>
    cases b with
    | nan => simp [EV.div]
    | inf => simp [EV.div]
    | ninf => simp [EV.div]
    | num qb =>
      show (if qb < 0 then EV.ninf else EV.inf) = EV.nan ↔ _
      constructor
      · intro hc
        by_cases hbn : qb < 0
        · rw [if_pos hbn] at hc
          cases hc
        · rw [if_neg hbn] at hc
          cases hc
      · rintro (hc | hc | ⟨hc, _⟩ | ⟨_, hc | hc⟩) <;> cases hc
  | ninf =>
    cases b with
    | nan => simp [EV.div]
    | inf => simp [EV.div]
    | ninf => simp [EV.div]
    | num qb =>
      show (if qb < 0 then EV.inf else EV.ninf) = EV.nan ↔ _
      constructor
      · intro hc
        by_cases hbn : qb < 0
        · rw [if_pos hbn] at hc
          cases hc
        · rw [if_neg hbn] at hc
          cases hc
      · rintro (hc | hc | ⟨hc, _⟩ | ⟨_, hc | hc⟩) <;> cases hc
  | num qa =>
    cases b with
    | nan => simp [EV.div]
    | inf =>
      show EV.num 0 = EV.nan ↔ _
      constructor
      · intro hc
        cases hc
      · rintro (hc | hc | ⟨_, hc⟩ | ⟨hc | hc, _⟩) <;> cases hc
    | ninf =>
      show EV.num 0 = EV.nan ↔ _
      constructor
      · intro hc
        cases hc
      · rintro (hc | hc | ⟨_, hc⟩ | ⟨hc | hc, _⟩) <;> cases hc
    | num qb =>
      show (if qb ≠ 0 then EV.num (qa / qb) else if 0 < qa then EV.inf
          else if qa < 0 then EV.ninf else EV.nan) = EV.nan ↔ _
      split_ifs with hb hpa hna
      · constructor
        · intro hc
          cases hc
        · rintro (hc | hc | ⟨_, hc2⟩ | ⟨hc | hc, _⟩)
          · cases hc
          · cases hc
          · injection hc2 with e
            exact hb e
          · cases hc
          · cases hc
      · constructor
        · intro hc
          cases hc
        · rintro (hc | hc | ⟨hc1, _⟩ | ⟨hc | hc, _⟩)
          · cases hc
          · cases hc
          · injection hc1 with e
            rw [e] at hpa
            exact absurd hpa (lt_irrefl 0)
          · cases hc
          · cases hc
      · constructor
        · intro hc
          cases hc
        · rintro (hc | hc | ⟨hc1, _⟩ | ⟨hc | hc, _⟩)
          · cases hc
          · cases hc
          · injection hc1 with e
            rw [e] at hna
            exact absurd hna (lt_irrefl 0)
          · cases hc
          · cases hc
      · rw [not_not] at hb
        subst hb
        have hqa : qa = 0 := le_antisymm (not_lt.mp hpa) (not_lt.mp hna)
        subst hqa
        simp

end Comp

namespace Comp

theorem normalizeRecord_listing (r : Record) :
    (normalizeRecord r).listingNumber = stripCommas (astypeStr r.listingNumber) := rfl

theorem exportRow_head (r : Record) :
    (exportRow r).head? = some (cellToCsv r.listingNumber) := rfl

theorem stripCommas_astypeStr_isStr (c : Cell) :
    ∃ s, stripCommas (astypeStr c) = Cell.str s := by
  cases c with
  | str s => exact ⟨stripCommasStr s, rfl⟩
  | intg n => exact ⟨stripCommasStr (intStrZ n), rfl⟩
  | ev v =>
    cases v with
    | num q => exact ⟨stripCommasStr (renderQ q), rfl⟩
    | nan => exact ⟨stripCommasStr "nan", rfl⟩
    | inf => exact ⟨stripCommasStr "inf", rfl⟩
    | ninf => exact ⟨stripCommasStr "-inf", rfl⟩

/-- **C1 (amended)**: for a raw-loaded record, `Price/SqFt` is the extended-float
quotient of the normalized price and square footage; it is missing (`NaN`) iff the
price is missing, the square footage is missing, both operands are zero, or both
operands are infinite (`to_numeric` parses `"inf"`/`"infinity"` spellings to a signed
infinity) — when the square footage is zero but the price is positive, the quotient is
`+inf`, not missing, and `Series.mean` surfaces that infinity instead of excluding it;
in the remaining finite cases it equals `selling_price / square_footage` exactly. -/
theorem c1_price_per_sqft_characterization (r : Record)
    (hp : isStrCell r.sellingPrice = true) (hs : isStrCell r.squareFootage = true) :
    (normalizeRecord r).pricePerSqFt
        = Cell.ev (EV.div (toNumeric (stripCommas r.sellingPrice))
            (toNumeric (stripCommas r.squareFootage))) ∧
    (EV.div (toNumeric (stripCommas r.sellingPrice)) (toNumeric (stripCommas r.squareFootage))
        = EV.nan ↔
      toNumeric (stripCommas r.sellingPrice) = EV.nan ∨
      toNumeric (stripCommas r.squareFootage) = EV.nan ∨
      (toNumeric (stripCommas r.sellingPrice) = EV.num 0 ∧
        toNumeric (stripCommas r.squareFootage) = EV.num 0) ∨
      ((toNumeric (stripCommas r.sellingPrice) = EV.inf ∨
          toNumeric (stripCommas r.sellingPrice) = EV.ninf) ∧
        (toNumeric (stripCommas r.squareFootage) = EV.inf ∨
          toNumeric (stripCommas r.squareFootage) = EV.ninf))) ∧
    (∀ a b : ℚ, toNumeric (stripCommas r.sellingPrice) = EV.num a →
      toNumeric (stripCommas r.squareFootage) = EV.num b → b ≠ 0 →
      EV.div (toNumeric (stripCommas r.sellingPrice)) (toNumeric (stripCommas r.squareFootage))
        = EV.num (a / b)) ∧
    (∀ a : ℚ, toNumeric (stripCommas r.sellingPrice) = EV.num a →
      toNumeric (stripCommas r.squareFootage) = EV.num 0 → 0 < a →
      EV.div (toNumeric (stripCommas r.sellingPrice)) (toNumeric (stripCommas r.squareFootage))
        = EV.inf ∧ meanEV [EV.inf] = EV.inf) := by
  refine ⟨rfl, EV_div_nan_iff _ _, ?_, ?_⟩
  · intro a b ha hb hb0
    rw [ha, hb]
    exact EV_div_num a b hb0
  · intro a ha hb hpos
    rw [ha, hb, EV_div_num_zero, if_pos hpos]
    exact ⟨rfl, by decide⟩

/-- **C2 (amended)**: an empty two-story subset has missing (`NaN`) mean price and mean
price-per-area, as does an all-missing subset; the premium computed against a missing
two-story mean is `NaN` — silently propagated, with no exception and no distinct
"undefined" sentinel — and against a zero two-story mean it is `+inf`/`-inf`/`NaN`
according to the sign of the single-story mean. -/
theorem c2_undefined_premium (df : List Record) :
    (twoStory df = [] → meanPrice (twoStory df) = EV.nan ∧ meanPpsf (twoStory df) = EV.nan) ∧
    ((∀ r ∈ twoStory df, cellEV r.pricePerSqFt = EV.nan) → meanPpsf (twoStory df) = EV.nan) ∧
    (meanPpsf (twoStory df) = EV.nan → ramblerPremium df = EV.nan) ∧
    (∀ a : ℚ, meanPpsf (oneStory df) = EV.num a → meanPpsf (twoStory df) = EV.num 0 →
      ramblerPremium df = if 0 < a then EV.inf else if a < 0 then EV.ninf else EV.nan) := by
  refine ⟨?_, ?_, ?_, ?_⟩
  · intro he
    rw [he]
    exact ⟨meanEV_nil_nan _ rfl, meanEV_nil_nan _ rfl⟩
  · intro hall
    apply meanEV_nil_nan
    unfold dropNa ppsfCol
    rw [List.filter_eq_nil_iff]
    intro a ha
    rcases List.mem_map.mp ha with ⟨r, hr, rfl⟩
    rw [hall r hr]
    simp
  · intro hnan
    unfold ramblerPremium
    rw [hnan]
    exact premiumEV_nan _
  · intro a ha hz
    unfold ramblerPremium
    rw [ha, hz]
    exact premiumEV_zero a

/-- **C3**: the aggregator's mean excludes missing values from both the numerator and
the denominator (it equals the plain average of the non-missing entries and is missing
for an empty or all-missing column), while a subset's count is its full row length. -/
theorem c3_mean_contract :
    (∀ l : List EV, meanEV l = meanEV (dropNa l)) ∧
    (∀ (qs : List ℚ) (l : List EV), dropNa l = qs.map EV.num → qs ≠ [] →
      meanEV l = EV.num (qs.sum / qs.length)) ∧
    (∀ l : List EV, dropNa l = [] → meanEV l = EV.nan) ∧
    (∀ df : List Record, (oneStory df).length = (df.filter fun r =>
      decide (r.styleCode = oneStoryCode)).length) := by
  exact ⟨meanEV_dropNa, fun qs l h hne => meanEV_num h hne, meanEV_nil_nan,
    fun df => rfl⟩

/-- **C4**: filtering on the two target style codes is a disjoint, order-preserving
partition — each subset is a subsequence of the table, membership is exactly
style-code match, no record is in both subsets, and together they contain exactly the
records matching one of the two targets. -/
theorem c4_partition_disjoint_order_preserving (df : List Record) :
    (oneStory df).Sublist df ∧ (twoStory df).Sublist df ∧ (bothStyles df).Sublist df ∧
    (∀ r, r ∈ oneStory df ↔ r ∈ df ∧ r.styleCode = oneStoryCode) ∧
    (∀ r, r ∈ twoStory df ↔ r ∈ df ∧ r.styleCode = twoStoryCode) ∧
    (∀ r, r ∈ bothStyles df ↔
      r ∈ df ∧ (r.styleCode = oneStoryCode ∨ r.styleCode = twoStoryCode)) ∧
    (∀ r, ¬(r ∈ oneStory df ∧ r ∈ twoStory df)) ∧
    (oneStory df ++ twoStory df).Perm (bothStyles df) := by
  have hmem1 : ∀ r, r ∈ oneStory df ↔ r ∈ df ∧ r.styleCode = oneStoryCode := by
    intro r
    rw [oneStory, List.mem_filter, decide_eq_true_eq]
  have hmem2 : ∀ r, r ∈ twoStory df ↔ r ∈ df ∧ r.styleCode = twoStoryCode := by
    intro r
    rw [twoStory, List.mem_filter, decide_eq_true_eq]
  have hcodes : oneStoryCode ≠ twoStoryCode := by decide
  refine ⟨List.filter_sublist df, List.filter_sublist df, List.filter_sublist df,
    hmem1, hmem2, ?_, ?_, ?_⟩
  · intro r
    rw [bothStyles, List.mem_filter, decide_eq_true_eq]
  · intro r ⟨h1, h2⟩
    have e1 := ((hmem1 r).mp h1).2
    have e2 := ((hmem2 r).mp h2).2
    exact hcodes (e1 ▸ e2)
  · have hpred : bothStyles df = df.filter fun r =>
        decide (r.styleCode = oneStoryCode) || decide (r.styleCode = twoStoryCode) := by
      unfold bothStyles
      apply List.filter_congr
      intro a _
      exact Bool.decide_or _ _
    rw [hpred]
    apply filter_or_perm
    intro x ⟨h1, h2⟩
    rw [decide_eq_true_eq] at h1 h2
    exact hcodes (h1 ▸ h2)

/-- **C6**: field normalization is idempotent — re-normalizing an already-normalized
record (or table) leaves every field value unchanged. -/
theorem c6_normalization_idempotent (r : Record) (df : List Record) :
    normalizeRecord (normalizeRecord r) = normalizeRecord r ∧
    normalizeTable (normalizeTable df) = normalizeTable df := by
  refine ⟨normalizeRecord_idem r, ?_⟩
  unfold normalizeTable
  rw [List.map_map]
  exact List.map_congr_left fun x _ => normalizeRecord_idem x

/-- **C7**: the normalizer is total on rows — every record yields exactly one
normalized record, no row is dropped (the table keeps its length and every normalized
row is present), parsing any string yields a float value (a finite number, a signed
infinity for the `inf`/`infinity` spellings, or `NaN`) and never raises, an
unparseable numeric field becomes missing (`NaN`), and a fully malformed row is
retained. -/
theorem c7_normalizer_total (df : List Record) :
    (normalizeTable df).length = df.length ∧
    (∀ r ∈ df, normalizeRecord r ∈ normalizeTable df) ∧
    (∀ s : String, parseEV s = EV.nan ∨ parseEV s = EV.inf ∨ parseEV s = EV.ninf ∨
      ∃ q, parseEV s = EV.num q) ∧
    (normalizeRecord ⟨Cell.str "42", Cell.str "N/A", Cell.str "oops", Cell.str "7 - Split",
        Cell.str "", []⟩).sellingPrice = Cell.ev EV.nan ∧
    (normalizeRecord ⟨Cell.str "42", Cell.str "N/A", Cell.str "oops", Cell.str "7 - Split",
        Cell.str "", []⟩).squareFootage = Cell.ev EV.nan ∧
    normalizeTable [⟨Cell.str "42", Cell.str "N/A", Cell.str "oops", Cell.str "7 - Split",
        Cell.str "", []⟩] ≠ [] := by
  refine ⟨List.length_map df _, ?_, ?_, by decide, by decide, by decide⟩
  · intro r hr
    exact List.mem_map.mpr ⟨r, hr, rfl⟩
  · intro s
    rcases parseEV_cases s with h | h | h | ⟨q, hq, _⟩
    · exact Or.inl h
    · exact Or.inr (Or.inl h)
    · exact Or.inr (Or.inr (Or.inl h))
    · exact Or.inr (Or.inr (Or.inr ⟨q, hq⟩))

/-- **C8**: the listing number is always normalized to a string cell (comma characters
stripped, never coerced to a numeric type); `"1,234,567"` becomes the string
`"1234567"` and is exported verbatim as `"1234567"` at the head of its CSV row. -/
theorem c8_listing_kept_as_string (r : Record) :
    (∃ s : String, (normalizeRecord r).listingNumber = Cell.str s ∧
      (exportRow (normalizeRecord r)).head? = some s) ∧
    (normalizeRecord ⟨Cell.str "1,234,567", Cell.str "100", Cell.str "1000",
        Cell.str "10 - 1 Story", Cell.str "", []⟩).listingNumber = Cell.str "1234567" ∧
    (exportRow (normalizeRecord ⟨Cell.str "1,234,567", Cell.str "100", Cell.str "1000",
        Cell.str "10 - 1 Story", Cell.str "", []⟩)).head? = some "1234567" := by
  refine ⟨?_, by decide, by decide⟩
  obtain ⟨s, hs⟩ := stripCommas_astypeStr_isStr r.listingNumber
  refine ⟨s, ?_, ?_⟩
  · rw [normalizeRecord_listing, hs]
  · rw [exportRow_head, normalizeRecord_listing, hs]
    rfl

/-- **C9 (amended)**: under the loader contract of spec §4.1 (a re-load yields raw
string fields, i.e. type inference leaves every exported column as text), exporting
the two-style filtered table to the cell-level CSV format and re-running the Loader
and Normalizer yields records field-for-field identical to the filtered originals,
with the separator-stripping transform a no-op on the second pass. The program's
actual `pd.read_csv` re-load violates this contract when a filtered column is
all-numeric — an all-digit listing-number column re-reads as int64, losing leading
zeros — so the round-trip holds only for the raw-string re-load. -/
theorem c9_export_reload_roundtrip (df : List Record) (h : rawTable df = true) :
    normalizeTable (loadTable (exportCsv (normalizeTable df)))
      = bothStyles (normalizeTable df) :=
  reload_roundtrip h

/-- **C10**: normalization is frame-preserving — it keeps the table's row count and
row order, and every column other than the three rewritten ones and the derived
`Price/SqFt` (in particular `Style Code` and all remaining columns) is unchanged
row-for-row. -/
theorem c10_frame_preservation (df : List Record) (i : ℕ) :
    (normalizeTable df).length = df.length ∧
    ((normalizeTable df)[i]?).map Record.styleCode = (df[i]?).map Record.styleCode ∧
    ((normalizeTable df)[i]?).map Record.others = (df[i]?).map Record.others := by
  refine ⟨List.length_map df _, ?_, ?_⟩
  · unfold normalizeTable
    rw [List.getElem?_map]
    cases df[i]? <;> rfl
  · unfold normalizeTable
    rw [List.getElem?_map]
    cases df[i]? <;> rfl

end Comp

namespace Comp

/-- **C5**: whenever both subset means are numeric and the two-story mean is nonzero,
the displayed premium equals
`(mean_price_per_area[single-story] - mean_price_per_area[two-story]) /
 mean_price_per_area[two-story] * 100`. -/
theorem c5_premium_formula (df : List Record) (a b : ℚ)
    (ha : meanPpsf (oneStory df) = EV.num a) (hb : meanPpsf (twoStory df) = EV.num b)
    (hb0 : b ≠ 0) :
    ramblerPremium df = EV.num ((a - b) / b * 100) := by
  unfold ramblerPremium premiumEV
  rw [ha, hb]
  show EV.mul (EV.div (EV.num (a - b)) (EV.num b)) (EV.num 100) = _
  rw [EV_div_num _ _ hb0]
  rfl

end Comp

section ConcreteChecks

set_option allowUnsafeReducibility true

attribute [local semireducible] Rat.add Rat.mul Rat.sub Rat.div Rat.inv Rat.neg

namespace Comp

/-- **C1 counterexample**: a row with selling price `100` and square footage `0` gets
`Price/SqFt = +inf`, not a missing value — refuting "missing iff selling_price missing,
square_footage missing, or square_footage equals 0" and "no infinite value is ever
surfaced", since the mean over that column is `+inf`. -/
theorem c1_counterexample :
    (normalizeRecord ⟨Cell.str "1", Cell.str "100", Cell.str "0", Cell.str "10 - 1 Story",
        Cell.str "", []⟩).pricePerSqFt = Cell.ev EV.inf ∧
    EV.inf ≠ EV.nan ∧
    meanEV [EV.inf] = EV.inf := by
  refine ⟨by decide, by decide, by decide⟩

/-- Witness for C1: a clean row (price `"450,000"`, area `"2,000"`) satisfies the raw-cell
hypotheses and its derived field is the exact quotient `225`. -/
theorem c1_witness :
    (normalizeRecord ⟨Cell.str "7", Cell.str "450,000", Cell.str "2,000",
        Cell.str "10 - 1 Story", Cell.str "", []⟩).pricePerSqFt
      = Cell.ev (EV.div (toNumeric (stripCommas (Cell.str "450,000")))
          (toNumeric (stripCommas (Cell.str "2,000")))) ∧
    EV.div (toNumeric (stripCommas (Cell.str "450,000")))
        (toNumeric (stripCommas (Cell.str "2,000"))) = EV.num 225 := by
  have h := c1_price_per_sqft_characterization
    ⟨Cell.str "7", Cell.str "450,000", Cell.str "2,000",
      Cell.str "10 - 1 Story", Cell.str "", []⟩ rfl rfl
  refine ⟨h.1, ?_⟩
  have h3 := h.2.2.1 450000 2000 (by decide) (by decide) (by norm_num)
  rw [h3]
  decide

/-- **C2 counterexample**: on a table whose two-story subset is empty, the premium
evaluates to `NaN` — not an "undefined" sentinel distinct from `NaN` as the claim
states. -/
theorem c2_counterexample :
    twoStory (normalizeTable [⟨Cell.str "1", Cell.str "200000", Cell.str "2000",
        Cell.str "10 - 1 Story", Cell.str "", []⟩]) = [] ∧
    ramblerPremium (normalizeTable [⟨Cell.str "1", Cell.str "200000", Cell.str "2000",
        Cell.str "10 - 1 Story", Cell.str "", []⟩]) = EV.nan := by
  refine ⟨by decide, by decide⟩

/-- Witness for C2: on the same empty-two-story table, the amended theorem yields the
missing means. -/
theorem c2_witness :
    meanPrice (twoStory (normalizeTable [⟨Cell.str "1", Cell.str "200000", Cell.str "2000",
        Cell.str "10 - 1 Story", Cell.str "", []⟩])) = EV.nan ∧
    meanPpsf (twoStory (normalizeTable [⟨Cell.str "1", Cell.str "200000", Cell.str "2000",
        Cell.str "10 - 1 Story", Cell.str "", []⟩])) = EV.nan :=
  (c2_undefined_premium (normalizeTable [⟨Cell.str "1", Cell.str "200000", Cell.str "2000",
    Cell.str "10 - 1 Story", Cell.str "", []⟩])).1 (by decide)

/-- Witness for C3: the spec's worked example through the pipeline — price/area pairs
`[100/1000, missing, 300/1500]` give mean price-per-area `0.15` while the subset count
stays `3`. -/
theorem c3_witness :
    meanPpsf (oneStory (normalizeTable
      [⟨Cell.str "1", Cell.str "100", Cell.str "1000", Cell.str "10 - 1 Story",
          Cell.str "", []⟩,
        ⟨Cell.str "2", Cell.str "", Cell.str "", Cell.str "10 - 1 Story",
          Cell.str "", []⟩,
        ⟨Cell.str "3", Cell.str "300", Cell.str "1500", Cell.str "10 - 1 Story",
          Cell.str "", []⟩])) = EV.num (3 / 20) ∧
    (oneStory (normalizeTable
      [⟨Cell.str "1", Cell.str "100", Cell.str "1000", Cell.str "10 - 1 Story",
          Cell.str "", []⟩,
        ⟨Cell.str "2", Cell.str "", Cell.str "", Cell.str "10 - 1 Story",
          Cell.str "", []⟩,
        ⟨Cell.str "3", Cell.str "300", Cell.str "1500", Cell.str "10 - 1 Story",
          Cell.str "", []⟩])).length = 3 := by
  have h := c3_mean_contract.2.1 [1 / 10, 1 / 5]
    (ppsfCol (oneStory (normalizeTable
      [⟨Cell.str "1", Cell.str "100", Cell.str "1000", Cell.str "10 - 1 Story",
          Cell.str "", []⟩,
        ⟨Cell.str "2", Cell.str "", Cell.str "", Cell.str "10 - 1 Story",
          Cell.str "", []⟩,
        ⟨Cell.str "3", Cell.str "300", Cell.str "1500", Cell.str "10 - 1 Story",
          Cell.str "", []⟩]))) (by decide) (by decide)
  refine ⟨?_, by decide⟩
  show meanEV (ppsfCol (oneStory (normalizeTable _))) = EV.num (3 / 20)
  rw [h]
  decide

/-- Witness for C4: on a concrete three-style table, the subsets are disjoint and the
filtered union is a permutation-exact match. -/
theorem c4_witness :
    (¬((⟨Cell.str "1", Cell.str "1", Cell.str "1", Cell.str "10 - 1 Story",
        Cell.str "", []⟩ : Record) ∈
      oneStory [⟨Cell.str "1", Cell.str "1", Cell.str "1", Cell.str "10 - 1 Story",
        Cell.str "", []⟩] ∧
      (⟨Cell.str "1", Cell.str "1", Cell.str "1", Cell.str "10 - 1 Story",
        Cell.str "", []⟩ : Record) ∈
      twoStory [⟨Cell.str "1", Cell.str "1", Cell.str "1", Cell.str "10 - 1 Story",
        Cell.str "", []⟩])) ∧
    (oneStory [(⟨Cell.str "1", Cell.str "1", Cell.str "1", Cell.str "10 - 1 Story",
        Cell.str "", []⟩ : Record)]).Sublist
      [⟨Cell.str "1", Cell.str "1", Cell.str "1", Cell.str "10 - 1 Story",
        Cell.str "", []⟩] :=
  ⟨(c4_partition_disjoint_order_preserving _).2.2.2.2.2.2.1 _,
    (c4_partition_disjoint_order_preserving _).1⟩

/-- Witness for C5: a single-story mean of `220` $/area against a two-story mean of
`200` $/area yields a premium of exactly `10`. -/
theorem c5_witness :
    ramblerPremium (normalizeTable
      [⟨Cell.str "1", Cell.str "220", Cell.str "1", Cell.str "10 - 1 Story",
          Cell.str "", []⟩,
        ⟨Cell.str "2", Cell.str "200", Cell.str "1", Cell.str "12 - 2 Story",
          Cell.str "", []⟩]) = EV.num 10 := by
  have h := c5_premium_formula (normalizeTable
    [⟨Cell.str "1", Cell.str "220", Cell.str "1", Cell.str "10 - 1 Story",
        Cell.str "", []⟩,
      ⟨Cell.str "2", Cell.str "200", Cell.str "1", Cell.str "12 - 2 Story",
        Cell.str "", []⟩]) 220 200 (by decide) (by decide) (by norm_num)
  rw [h]
  decide

/-- Witness for C7: a fully malformed row is normalized (not dropped) and its
normalization is in the normalized table. -/
theorem c7_witness :
    normalizeRecord ⟨Cell.str "42", Cell.str "N/A", Cell.str "oops", Cell.str "7 - Split",
        Cell.str "", []⟩ ∈
      normalizeTable [⟨Cell.str "42", Cell.str "N/A", Cell.str "oops", Cell.str "7 - Split",
        Cell.str "", []⟩] :=
  (c7_normalizer_total _).2.1 _ (by decide)

/-- **C9 counterexample**: the program's own loader (`pd.read_csv` with column type
inference, modelled by `inferLoadTable`) breaks the round-trip — a listing-number
column whose exported cells are all digit strings (here `"0012345"`) is inferred as
int64, and `astype(str)` then yields `"12345"`, so the re-loaded normalized table
differs from the filtered original in its listing-number field. -/
theorem c9_counterexample :
    normalizeTable (inferLoadTable (exportCsv (normalizeTable
      [⟨Cell.str "0012345", Cell.str "450,000", Cell.str "2,000",
          Cell.str "10 - 1 Story", Cell.str "", []⟩])))
      ≠ bothStyles (normalizeTable
      [⟨Cell.str "0012345", Cell.str "450,000", Cell.str "2,000",
          Cell.str "10 - 1 Story", Cell.str "", []⟩]) ∧
    (normalizeTable (inferLoadTable (exportCsv (normalizeTable
      [⟨Cell.str "0012345", Cell.str "450,000", Cell.str "2,000",
          Cell.str "10 - 1 Story", Cell.str "", []⟩])))).map
        (fun r => r.listingNumber) = [Cell.str "12345"] ∧
    (bothStyles (normalizeTable
      [⟨Cell.str "0012345", Cell.str "450,000", Cell.str "2,000",
          Cell.str "10 - 1 Story", Cell.str "", []⟩])).map
        (fun r => r.listingNumber) = [Cell.str "0012345"] := by
  refine ⟨by decide, by decide, by decide⟩

/-- Witness for C9: a concrete raw table (comma-formatted numbers, a missing area, a
non-target style) satisfies the loader contract and round-trips through export and
reload. -/
theorem c9_witness :
    rawTable [⟨Cell.str "1,234,567", Cell.str "450,000", Cell.str "2,000",
        Cell.str "10 - 1 Story", Cell.str "", []⟩,
      ⟨Cell.str "77", Cell.str "399990", Cell.str "", Cell.str "12 - 2 Story",
        Cell.str "", []⟩,
      ⟨Cell.str "88", Cell.str "500000", Cell.str "1900", Cell.str "33 - Tri-Level",
        Cell.str "", [Cell.str "note, with comma"]⟩] = true ∧
    normalizeTable (loadTable (exportCsv (normalizeTable
      [⟨Cell.str "1,234,567", Cell.str "450,000", Cell.str "2,000",
          Cell.str "10 - 1 Story", Cell.str "", []⟩,
        ⟨Cell.str "77", Cell.str "399990", Cell.str "", Cell.str "12 - 2 Story",
          Cell.str "", []⟩,
        ⟨Cell.str "88", Cell.str "500000", Cell.str "1900", Cell.str "33 - Tri-Level",
          Cell.str "", [Cell.str "note, with comma"]⟩])))
      = bothStyles (normalizeTable
      [⟨Cell.str "1,234,567", Cell.str "450,000", Cell.str "2,000",
          Cell.str "10 - 1 Story", Cell.str "", []⟩,
        ⟨Cell.str "77", Cell.str "399990", Cell.str "", Cell.str "12 - 2 Story",
          Cell.str "", []⟩,
        ⟨Cell.str "88", Cell.str "500000", Cell.str "1900", Cell.str "33 - Tri-Level",
          Cell.str "", [Cell.str "note, with comma"]⟩]) :=
  ⟨rfl, c9_export_reload_roundtrip _ rfl⟩

end Comp

end ConcreteChecks
